import Mathlib

/-!
Shallow embedding of the xpectate watch loop (src/src/lib.rs).

The program consumes raw filesystem notifications, optionally filters them
by file extension, classifies them into a `(kind, path)` pair, logs the
first detected change, and — when a command is configured — spawns that
command at most once per one-second debounce window.

Times are modelled as integers (nanoseconds); the debounce window
`Duration::new(1, 0)` becomes the constant `debounceWindow`.
Panics (`unwrap` on a missing value) are modelled with `Option`:
`none` means the loop aborts.  Side effects (println / process spawning)
are modelled as explicit lists of log entries and spawned commands.
-/

namespace Xpectate

/-- Structural kind of a raw notify event.  The Rust `EventKind` enum has
variants `Any, Access(_), Create(_), Modify(_), Remove(_), Other`; the
catch-all `_` arm of `event_to_tuple` matches `Any`. -/
inductive RawKind
  | access
  | create
  | modify
  | remove
  | other
  | any
deriving DecidableEq, Repr

/-- A successful raw notification: a structural kind and the list of
affected paths (each path is its display string). -/
structure RawEvent where
  kind : RawKind
  paths : List String
deriving DecidableEq, Repr

/-- String label produced by the `match &event.kind` in `event_to_tuple`. -/
def kindLabel : RawKind → String
  | .access => "Access"
  | .create => "Create"
  | .modify => "Modify"
  | .remove => "Remove"
  | .other => "Other"
  | .any => "Unknown"

/-- Embedding of `event_to_tuple` (src/src/lib.rs lines 19-34):
`event.paths.get(0).map(|p| p.display().to_string())` followed by
`.unwrap()`.  The `unwrap` of a missing first path is a panic, modelled
as `none`. -/
def event_to_tuple (e : RawEvent) : Option (String × String) :=
  (e.paths.get? 0).map (fun p => (kindLabel e.kind, p))

/-- Split of a path string at every `/` separator, empty pieces kept
(`acc` holds the current piece's characters in reverse). -/
def splitOnSlash : List Char → List Char → List String
  | [], acc => [String.mk acc.reverse]
  | c :: cs, acc =>
    if c = '/' then String.mk acc.reverse :: splitOnSlash cs []
    else splitOnSlash cs (c :: acc)

/-- Embedding of Rust `std::path::Path::file_name` on a Unix-style path
string: the last component of the path — where empty pieces (root,
duplicate or trailing separators) and the current-directory marker `.`
are not components — provided that component is a normal one; a path
ending in the parent marker `..`, or with no component at all, has no
file name. -/
def file_name (p : String) : Option String :=
  let comps := (splitOnSlash p.toList []).filter (fun c => !(c == "") && !(c == "."))
  match comps.getLast? with
  | none => none
  | some c => if c = ".." then none else some c

/-- Embedding of the Rust standard library's `rsplit_file_at_dot` step of
`Path::extension`, applied to a file name: `None` if the name is `..`,
has no `.`, or begins with its only `.` (e.g. `.gitignore`); otherwise
the portion of the name after the final `.`. -/
def fileExtension (file : String) : Option String :=
  if file = ".." then none
  else
    let cs := file.toList
    let afterRev := cs.reverse.takeWhile (fun c => c ≠ '.')
    if afterRev.length = cs.length then none
    else if cs.take (cs.length - afterRev.length - 1) = [] then none
    else some (String.mk afterRev.reverse)

/-- Embedding of Rust `std::path::Path::extension`: the extension of the
path's file name, when the path has a file name and that name has an
extension (so `/a/.gitignore`, `a.b/c` and `Makefile` all have none).
This is the library routine the filter in `watch` calls; it is external
to the repository and is embedded from its documented semantics. -/
def extension (p : String) : Option String :=
  (file_name p).bind fileExtension

/-- Embedding of the filter body in `watch` (src/src/lib.rs lines 90-94):
`event.paths.iter().any(|p| p.extension().map(|ext| exts.contains(...)).unwrap_or(false))`. -/
def should_process (paths : List String) (exts : List String) : Bool :=
  paths.any (fun p => ((extension p).map (fun ext => exts.contains ext)).getD false)

/-- Relevance of a raw event's path list given the optional allow-list:
with no allow-list the `if let Some(exts)` in `watch` is skipped and every
event is processed; otherwise the event is processed iff `should_process`. -/
def isRelevant (paths : List String) (extensions : Option (List String)) : Bool :=
  match extensions with
  | none => true
  | some exts => should_process paths exts

/-- Whitespace tokenization, embedding Rust `str::split_whitespace`:
maximal runs of non-whitespace characters, empty tokens discarded.
`acc` holds the current token's characters in reverse. -/
def splitWsAux : List Char → List Char → List String
  | [], acc => if acc = [] then [] else [String.mk acc.reverse]
  | c :: cs, acc =>
    if c.isWhitespace then
      (if acc = [] then [] else [String.mk acc.reverse]) ++ splitWsAux cs []
    else
      splitWsAux cs (c :: acc)

/-- Tokens of a command string, as `arg_str.split_whitespace()` produces
them in `call_command`. -/
def split_whitespace (s : String) : List String :=
  splitWsAux s.toList []

/-- A spawned external process: program name plus argument list. -/
structure SpawnedProcess where
  program : String
  args : List String
deriving DecidableEq, Repr

/-- Embedding of `call_command` (src/src/lib.rs lines 45-52): the command
string is split on whitespace and the tokens are passed as arguments to
`pwsh -Command`, PowerShell being the shell interpreter the process is
spawned through. -/
def call_command (arg_str : String) : SpawnedProcess :=
  { program := "pwsh", args := "-Command" :: split_whitespace arg_str }

/-- Debounce window, `Duration::new(1, 0)` in nanoseconds. -/
def debounceWindow : Int := 1000000000

/-- Loop-local mutable state of `watch`: the `has_changes` latch and
`last_call_time`. -/
structure LoopState where
  has_changes : Bool
  last_call_time : Int
deriving DecidableEq, Repr

/-- Initial state (src/src/lib.rs lines 81-83): `has_changes = false` and
`last_call_time = Instant::now() - Duration::new(1, 0)`, i.e. one window
before the loop start time. -/
def initState (start : Int) : LoopState :=
  { has_changes := false, last_call_time := start - debounceWindow }

/-- A raw notification from the event source channel: `Ok(event)` or
`Err(error)`. -/
inductive Notification
  | ok (e : RawEvent)
  | err (msg : String)
deriving DecidableEq, Repr

/-- One line printed to standard output by the loop. -/
inductive LogEntry
  | watchStart
  | changeDetected
  | changeInfo (tup : String × String)
  | errorLine (msg : String)
  | runningCommand (cmd : String)
deriving DecidableEq, Repr

/-- State, log lines and spawned commands (command string paired with the
spawn time) produced by part of a loop run. -/
structure StepResult where
  state : LoopState
  logs : List LogEntry
  spawned : List (String × Int)
deriving DecidableEq, Repr

/-- Embedding of the firing block (src/src/lib.rs lines 113-122), which
runs at the end of EVERY loop iteration that is not skipped by
`continue`: if a command is configured and `has_changes` is set and
`now - last_call_time >= debounceWindow`, log, spawn the command and set
`last_call_time = now`. -/
def fireStep (command : Option String) (s : LoopState) (now : Int) : StepResult :=
  match command with
  | none => ⟨s, [], []⟩
  | some cmd =>
    if s.has_changes then
      if debounceWindow ≤ now - s.last_call_time then
        ⟨{ has_changes := s.has_changes, last_call_time := now },
         [.runningCommand cmd], [(cmd, now)]⟩
      else ⟨s, [], []⟩
    else ⟨s, [], []⟩

/-- Embedding of one iteration of the `for res in rx` loop
(src/src/lib.rs lines 85-124) processing one notification at time `now`.
`none` models a panic (the `unwrap` in `event_to_tuple` on an event with
no paths).  On `Err`, the error is printed and the firing block still
runs.  On `Ok`, a non-relevant event is skipped by `continue` (firing
block included); otherwise the event is classified, the latch is set and
logged on its first transition, and the firing block runs. -/
def processNotification (extensions : Option (List String)) (command : Option String)
    (s : LoopState) (n : Notification) (now : Int) : Option StepResult :=
  match n with
  | .err msg =>
    let r := fireStep command s now
    some ⟨r.state, .errorLine msg :: r.logs, r.spawned⟩
  | .ok e =>
    if isRelevant e.paths extensions then
      match event_to_tuple e with
      | none => none
      | some tup =>
        let s1 := if s.has_changes then s else { s with has_changes := true }
        let logs1 : List LogEntry :=
          if s.has_changes then [] else [.changeDetected, .changeInfo tup]
        let r := fireStep command s1 now
        some ⟨r.state, logs1 ++ r.logs, r.spawned⟩
    else
      some ⟨s, [], []⟩

/-- Run of the watch loop over a finite prefix of the notification
stream, each notification paired with the `Instant::now()` value read
while processing it.  `none` models a crash of the whole loop. -/
def runLoop (extensions : Option (List String)) (command : Option String) :
    LoopState → List (Notification × Int) → Option StepResult
  | s, [] => some ⟨s, [], []⟩
  | s, (n, t) :: rest =>
    match processNotification extensions command s n t with
    | none => none
    | some r =>
      match runLoop extensions command r.state rest with
      | none => none
      | some r2 => some ⟨r2.state, r.logs ++ r2.logs, r.spawned ++ r2.spawned⟩

/-- Greedy debounce schedule: given the recorded last-fire time, the fire
times selected from a list of event times — an event fires exactly when
its distance from the last fire is at least the window, and each fire
advances the last-fire time to the firing event's time. -/
def fireTimes (last : Int) : List Int → List Int
  | [] => []
  | t :: ts => if debounceWindow ≤ t - last then t :: fireTimes t ts else fireTimes last ts

/-- Final last-fire time after running the greedy debounce schedule. -/
def lastFire (last : Int) : List Int → Int
  | [] => last
  | t :: ts => if debounceWindow ≤ t - last then lastFire t ts else lastFire last ts

/-- Occurrences of the one-shot `Change detected!` line in a log. -/
def countDetected : List LogEntry → Nat
  | [] => 0
  | .changeDetected :: ls => countDetected ls + 1
  | _ :: ls => countDetected ls

/-- Extension reading used verbatim by claim C3's wording: the substring
after the final `.` of the file name, whenever the name contains a `.`.
This follows the spec's words, to be compared with `extension`, the
library routine the code actually calls. -/
def specSuffixAfterFinalDot (file : String) : Option String :=
  let cs := file.toList
  if cs.contains '.' then
    some (String.mk (cs.reverse.takeWhile (fun c => c ≠ '.')).reverse)
  else none

/-! ## Helper lemmas -/

theorem event_to_tuple_eq (e : RawEvent) (p : String) (ps : List String)
    (hp : e.paths = p :: ps) : event_to_tuple e = some (kindLabel e.kind, p) := by
  simp [event_to_tuple, hp]

theorem countDetected_append (l1 l2 : List LogEntry) :
    countDetected (l1 ++ l2) = countDetected l1 + countDetected l2 := by
  induction l1 with
  | nil => simp [countDetected]
  | cons a l ih =>
    cases a <;> (simp [countDetected, ih]; try omega)

theorem fireStep_state_has (command : Option String) (s : LoopState) (now : Int) :
    (fireStep command s now).state.has_changes = s.has_changes := by
  cases command with
  | none => rfl
  | some cmd =>
    simp only [fireStep]
    by_cases h : s.has_changes = true
    · rw [if_pos h]
      by_cases hw : debounceWindow ≤ now - s.last_call_time
      · rw [if_pos hw]
      · rw [if_neg hw]
    · rw [if_neg h]

theorem fireStep_count (command : Option String) (s : LoopState) (now : Int) :
    countDetected (fireStep command s now).logs = 0 := by
  cases command with
  | none => rfl
  | some cmd =>
    simp only [fireStep]
    by_cases h : s.has_changes = true
    · rw [if_pos h]
      by_cases hw : debounceWindow ≤ now - s.last_call_time
      · rw [if_pos hw]; rfl
      · rw [if_neg hw]; rfl
    · rw [if_neg h]; rfl

theorem splitWsAux_tokens (cs : List Char) :
    ∀ acc, (∀ c ∈ acc, c.isWhitespace = false) →
      ∀ tok ∈ splitWsAux cs acc, tok ≠ "" ∧ ∀ c ∈ tok.data, c.isWhitespace = false := by
  induction cs with
  | nil =>
    intro acc hacc tok htok
    simp only [splitWsAux] at htok
    split at htok
    · simp at htok
    · next hne =>
      simp only [List.mem_singleton] at htok
      subst htok
      refine ⟨?_, ?_⟩
      · intro habs
        apply hne
        have hdata : acc.reverse = ([] : List Char) := congrArg String.data habs
        simpa using hdata
      · intro c hc
        exact hacc c (by simpa using hc)
  | cons c cs ih =>
    intro acc hacc tok htok
    simp only [splitWsAux] at htok
    by_cases hw : c.isWhitespace = true
    · rw [if_pos hw] at htok
      rcases List.mem_append.1 htok with h1 | h2
      · split at h1
        · simp at h1
        · next hne =>
          simp only [List.mem_singleton] at h1
          subst h1
          refine ⟨?_, ?_⟩
          · intro habs
            apply hne
            have hdata : acc.reverse = ([] : List Char) := congrArg String.data habs
            simpa using hdata
          · intro d hd
            exact hacc d (by simpa using hd)
      · exact ih [] (by simp) tok h2
    · rw [if_neg hw] at htok
      refine ih (c :: acc) ?_ tok htok
      intro d hd
      rcases List.mem_cons.1 hd with rfl | hd'
      · simpa using hw
      · exact hacc d hd'

theorem processNotification_count (exts : Option (List String)) (command : Option String)
    (s : LoopState) (n : Notification) (now : Int) (r : StepResult)
    (h : processNotification exts command s n now = some r) :
    countDetected r.logs + (cond s.has_changes 1 0) = cond r.state.has_changes 1 0 := by
  cases n with
  | err msg =>
    simp only [processNotification] at h
    obtain rfl := Option.some.inj h
    simp [countDetected, fireStep_count, fireStep_state_has]
  | ok e =>
    simp only [processNotification] at h
    by_cases hrel : isRelevant e.paths exts = true
    · rw [if_pos hrel] at h
      cases htup : event_to_tuple e with
      | none => rw [htup] at h; exact absurd h (by simp)
      | some tup =>
        rw [htup] at h
        simp only at h
        obtain rfl := Option.some.inj h
        by_cases hc : s.has_changes = true
        · simp [hc, countDetected, countDetected_append, fireStep_count, fireStep_state_has]
        · simp only [Bool.not_eq_true] at hc
          simp [hc, countDetected, countDetected_append, fireStep_count, fireStep_state_has]
    · rw [if_neg hrel] at h
      obtain rfl := Option.some.inj h
      simp [countDetected]

theorem runLoop_count (exts : Option (List String)) (command : Option String)
    (evs : List (Notification × Int)) :
    ∀ (s : LoopState) (r : StepResult), runLoop exts command s evs = some r →
      countDetected r.logs + (cond s.has_changes 1 0) = cond r.state.has_changes 1 0 := by
  induction evs with
  | nil =>
    intro s r h
    simp only [runLoop] at h
    obtain rfl := Option.some.inj h
    simp [countDetected]
  | cons nt rest ih =>
    obtain ⟨n, t⟩ := nt
    intro s r h
    simp only [runLoop] at h
    cases hp : processNotification exts command s n t with
    | none => rw [hp] at h; exact absurd h (by simp)
    | some r1 =>
      rw [hp] at h
      simp only at h
      cases hrest : runLoop exts command r1.state rest with
      | none => rw [hrest] at h; exact absurd h (by simp)
      | some r2 =>
        rw [hrest] at h
        simp only at h
        obtain rfl := Option.some.inj h
        have h1 := processNotification_count exts command s n t r1 hp
        have h2 := ih r1.state r2 hrest
        simp only [countDetected_append]
        omega

theorem processNotification_qualifying (exts : Option (List String)) (cmd : String)
    (s : LoopState) (e : RawEvent) (t : Int)
    (hrel : isRelevant e.paths exts = true) (hne : e.paths ≠ []) :
    ∃ logs, processNotification exts (some cmd) s (.ok e) t =
      some ⟨⟨true, if debounceWindow ≤ t - s.last_call_time then t else s.last_call_time⟩,
            logs,
            if debounceWindow ≤ t - s.last_call_time then [(cmd, t)] else []⟩ := by
  obtain ⟨p, ps, hp⟩ := List.exists_cons_of_ne_nil hne
  have htup := event_to_tuple_eq e p ps hp
  obtain ⟨hc, lt⟩ := s
  simp only [processNotification, hrel, if_true, htup]
  by_cases hchanges : hc = true
  · subst hchanges
    simp only [if_pos rfl, fireStep]
    by_cases hw : debounceWindow ≤ t - lt
    · exact ⟨[.runningCommand cmd], by simp [hw]⟩
    · exact ⟨[], by simp [hw]⟩
  · simp only [Bool.not_eq_true] at hchanges
    subst hchanges
    simp only [Bool.false_eq_true, if_false, fireStep]
    by_cases hw : debounceWindow ≤ t - lt
    · exact ⟨[.changeDetected, .changeInfo (kindLabel e.kind, p), .runningCommand cmd],
        by simp [hw]⟩
    · exact ⟨[.changeDetected, .changeInfo (kindLabel e.kind, p)], by simp [hw]⟩

theorem runLoop_qualifying (exts : Option (List String)) (cmd : String)
    (evs : List (RawEvent × Int)) :
    ∀ s : LoopState,
      (∀ q ∈ evs, isRelevant q.1.paths exts = true ∧ q.1.paths ≠ []) →
      ∃ logs, runLoop exts (some cmd) s (evs.map fun q => (.ok q.1, q.2)) =
        some ⟨⟨s.has_changes || !evs.isEmpty,
               lastFire s.last_call_time (evs.map Prod.snd)⟩,
              logs,
              (fireTimes s.last_call_time (evs.map Prod.snd)).map fun u => (cmd, u)⟩ := by
  induction evs with
  | nil =>
    intro s _
    refine ⟨[], ?_⟩
    obtain ⟨hc, lt⟩ := s
    simp [runLoop, lastFire, fireTimes]
  | cons q rest ih =>
    obtain ⟨e, t⟩ := q
    intro s hq
    obtain ⟨hrel, hne⟩ := hq (e, t) (List.mem_cons_self _ _)
    obtain ⟨logs1, hstep⟩ := processNotification_qualifying exts cmd s e t hrel hne
    obtain ⟨logs2, hrest⟩ :=
      ih ⟨true, if debounceWindow ≤ t - s.last_call_time then t else s.last_call_time⟩
        (fun q hq' => hq q (List.mem_cons_of_mem _ hq'))
    refine ⟨logs1 ++ logs2, ?_⟩
    simp only [List.map_cons, runLoop, hstep]
    rw [hrest]
    simp only [List.isEmpty_cons, Bool.not_false, Bool.or_true, Bool.true_or]
    by_cases hw : debounceWindow ≤ t - s.last_call_time
    · simp [hw, lastFire, fireTimes]
    · simp [hw, lastFire, fireTimes]

/-! ## Claim theorems -/

/-- Claim C3, counterexample: the claim reads the extension as "the
substring after the final `.` in the filename".  For the path
`.gitignore` that substring is `gitignore` and it is a member of the
allow-list `["gitignore"]`, so the claim demands relevance; the code's
`Path::extension` reports no extension for a dot-led file name, so the
filter rejects the event. -/
theorem C3_counterexample :
    isRelevant [".gitignore"] (some ["gitignore"]) = false ∧
    specSuffixAfterFinalDot ".gitignore" = some "gitignore" ∧
    "gitignore" ∈ ["gitignore"] := by decide

/-- Claim C3, amended: the relevance check returns true when the
allow-list is absent, and otherwise returns true iff at least one path in
the event's full path list has an extension as the path library computes
it from the path's file name (no extension for file names without a `.`
or for dot-led file names such as `.gitignore`; otherwise the portion of
the file name after the final `.`) that is equal, by exact case-sensitive
comparison, to some member of the allow-list. -/
theorem C3_filter_amended (paths : List String) (es : List String) :
    isRelevant paths none = true ∧
    (isRelevant paths (some es) = true ↔
      ∃ p ∈ paths, ∃ ext, extension p = some ext ∧ ext ∈ es) := by
  refine ⟨rfl, ?_⟩
  simp only [isRelevant, should_process, List.any_eq_true]
  constructor
  · rintro ⟨p, hp, hpred⟩
    cases hext : extension p with
    | none => rw [hext] at hpred; exact absurd hpred (by simp)
    | some ext =>
      rw [hext] at hpred
      simp only [Option.map_some', Option.getD_some] at hpred
      exact ⟨p, hp, ext, hext, List.elem_iff.1 hpred⟩
  · rintro ⟨p, hp, ext, hext, hmem⟩
    refine ⟨p, hp, ?_⟩
    rw [hext]
    simpa using List.elem_iff.2 hmem

/-- Claim C4: for every raw event whose path list is non-empty, the
classifier returns the kind label — drawn from the six-label set, the
five structural categories mapping one-to-one and `Any` mapping to
`Unknown` — paired with the display string of the first path. -/
theorem C4_classifier (e : RawEvent) (p : String) (ps : List String)
    (hp : e.paths = p :: ps) :
    event_to_tuple e = some (kindLabel e.kind, p) ∧
    kindLabel e.kind ∈ ["Access", "Create", "Modify", "Remove", "Other", "Unknown"] ∧
    kindLabel .access = "Access" ∧ kindLabel .create = "Create" ∧
    kindLabel .modify = "Modify" ∧ kindLabel .remove = "Remove" ∧
    kindLabel .other = "Other" ∧ kindLabel .any = "Unknown" := by
  refine ⟨event_to_tuple_eq e p ps hp, ?_, rfl, rfl, rfl, rfl, rfl, rfl⟩
  cases e.kind <;> decide

theorem C4_classifier_witness :
    event_to_tuple ⟨.create, ["b.css"]⟩ = some (kindLabel RawKind.create, "b.css") ∧
    kindLabel (RawEvent.mk .create ["b.css"]).kind ∈
      ["Access", "Create", "Modify", "Remove", "Other", "Unknown"] ∧
    kindLabel .access = "Access" ∧ kindLabel .create = "Create" ∧
    kindLabel .modify = "Modify" ∧ kindLabel .remove = "Remove" ∧
    kindLabel .other = "Other" ∧ kindLabel .any = "Unknown" :=
  C4_classifier ⟨.create, ["b.css"]⟩ "b.css" [] rfl

/-- Claim C6: a successful event that fails the extension filter is
skipped by `continue` before anything else happens: the step returns with
the state unchanged, no log lines and no spawned command — in particular
the firing block is never reached, whatever the command and timing. -/
theorem C6_filtered_skip (es : List String) (command : Option String)
    (s : LoopState) (e : RawEvent) (now : Int)
    (h : isRelevant e.paths (some es) = false) :
    processNotification (some es) command s (.ok e) now = some ⟨s, [], []⟩ := by
  simp [processNotification, h]

theorem C6_filtered_skip_witness :
    processNotification (some ["css"]) (some "make") ⟨true, 0⟩
      (.ok ⟨.modify, ["/w/app.js"]⟩) 9000000000 = some ⟨⟨true, 0⟩, [], []⟩ ∧
    processNotification (some ["gitignore"]) (some "make") ⟨true, 0⟩
      (.ok ⟨.modify, ["/w/.gitignore"]⟩) 9000000000 = some ⟨⟨true, 0⟩, [], []⟩ :=
  ⟨C6_filtered_skip ["css"] (some "make") ⟨true, 0⟩ ⟨.modify, ["/w/app.js"]⟩
     9000000000 (by decide),
   C6_filtered_skip ["gitignore"] (some "make") ⟨true, 0⟩ ⟨.modify, ["/w/.gitignore"]⟩
     9000000000 (by decide)⟩

/-- Claim C7: classifying an event with an empty path list panics (the
`unwrap` of a missing first path, modelled as `none`); with at least one
path the unwrap never fails; so non-emptiness of the path list is exactly
the precondition for classification to be total. -/
theorem C7_empty_path_crash (e : RawEvent) :
    (e.paths = [] → event_to_tuple e = none) ∧
    (e.paths ≠ [] → ∃ out, event_to_tuple e = some out) ∧
    ((event_to_tuple e).isSome = true ↔ e.paths ≠ []) := by
  cases hp : e.paths with
  | nil => simp [event_to_tuple, hp]
  | cons p ps => simp [event_to_tuple, hp]

theorem C7_empty_path_crash_witness :
    event_to_tuple ⟨.modify, []⟩ = none ∧
    ∃ out, event_to_tuple ⟨.modify, ["a"]⟩ = some out :=
  ⟨(C7_empty_path_crash ⟨.modify, []⟩).1 rfl,
   (C7_empty_path_crash ⟨.modify, ["a"]⟩).2.1 (by decide)⟩

/-- Claim C9: `call_command` splits the configured command string on
whitespace — tokens are the maximal non-empty runs of non-whitespace
characters, with no quoting or escaping (a quoted phrase is still split
at its inner spaces) — and hands that token sequence to the spawned
process through the shell interpreter (`pwsh -Command`). -/
theorem C9_tokenization (s : String) :
    call_command s = ⟨"pwsh", "-Command" :: split_whitespace s⟩ ∧
    (∀ tok ∈ split_whitespace s, tok ≠ "" ∧ ∀ c ∈ tok.data, c.isWhitespace = false) ∧
    split_whitespace "echo \"a b\" c" = ["echo", "\"a", "b\"", "c"] := by
  exact ⟨rfl, splitWsAux_tokens s.toList [] (by simp), by decide⟩

theorem C9_tokenization_witness :
    call_command "npx tailwind -i a" =
      ⟨"pwsh", "-Command" :: split_whitespace "npx tailwind -i a"⟩ ∧
    ("npx" ≠ "" ∧ ∀ c ∈ "npx".data, c.isWhitespace = false) :=
  ⟨(C9_tokenization "npx tailwind -i a").1,
   (C9_tokenization "npx tailwind -i a").2.1 "npx" (by decide)⟩

/-- Claim C10: with an allow-list present, an event all of whose paths
lack a library-recognized extension is always filtered out, whatever the
allow-list contains — a missing extension maps to non-membership via
`unwrap_or(false)`, never to a raw-suffix comparison.  In particular the
dot-led file name `.gitignore`, bare or directory-qualified as events
deliver it, and the dot-free `Makefile` have no extension. -/
theorem C10_no_extension_filtered (paths : List String) (es : List String)
    (h : ∀ p ∈ paths, extension p = none) :
    isRelevant paths (some es) = false ∧
    extension ".gitignore" = none ∧ extension "/w/.gitignore" = none ∧
    extension "Makefile" = none ∧ extension "/w/Makefile" = none := by
  refine ⟨?_, by decide, by decide, by decide, by decide⟩
  simp only [isRelevant, should_process, List.any_eq_false]
  intro p hp
  rw [h p hp]
  simp

theorem C10_no_extension_filtered_witness :
    isRelevant ["/w/.gitignore", "/w/README"]
      (some ["gitignore", "README", "css"]) = false ∧
    extension ".gitignore" = none ∧ extension "/w/.gitignore" = none ∧
    extension "Makefile" = none ∧ extension "/w/Makefile" = none :=
  C10_no_extension_filtered ["/w/.gitignore", "/w/README"]
    ["gitignore", "README", "css"] (by decide)

/-- Claim C1: over a run on qualifying events (relevant, with paths, and
a command configured) at strictly increasing times starting no earlier
than the loop start, the spawned commands are exactly the greedy debounce
schedule `fireTimes`: the trigger fires at `t0`, afterwards fires at
exactly those `ti` at distance at least the window from the last fire and
never at a closer `ti`, and each fire advances the recorded last-fire
time to the firing event's time (the final recorded time is
`lastFire`). -/
theorem C1_debounce_timing (exts : Option (List String)) (cmd : String) (start : Int)
    (q0 : RawEvent × Int) (qs : List (RawEvent × Int)) (r : StepResult)
    (hq : ∀ q ∈ q0 :: qs, isRelevant q.1.paths exts = true ∧ q.1.paths ≠ [])
    (_hinc : ((q0 :: qs).map Prod.snd).Chain' (· < ·))
    (h0 : start ≤ q0.2)
    (hrun : runLoop exts (some cmd) (initState start)
      ((q0 :: qs).map fun q => (.ok q.1, q.2)) = some r) :
    r.spawned = (fireTimes (start - debounceWindow) ((q0 :: qs).map Prod.snd)).map
        (fun u => (cmd, u)) ∧
    fireTimes (start - debounceWindow) ((q0 :: qs).map Prod.snd) =
      q0.2 :: fireTimes q0.2 (qs.map Prod.snd) ∧
    r.state.last_call_time = lastFire (start - debounceWindow) ((q0 :: qs).map Prod.snd) := by
  obtain ⟨logs, hrun'⟩ := runLoop_qualifying exts cmd (q0 :: qs) (initState start) hq
  rw [hrun'] at hrun
  obtain rfl := Option.some.inj hrun
  refine ⟨rfl, ?_, rfl⟩
  simp only [List.map_cons, fireTimes]
  rw [if_pos (by omega)]

theorem C1_debounce_timing_witness :
    ([("make", 0), ("make", 1200000000)] : List (String × Int)) =
      (fireTimes (0 - debounceWindow) [0, 300000000, 1200000000]).map
        (fun u => ("make", u)) ∧
    fireTimes (0 - debounceWindow) [0, 300000000, 1200000000] =
      0 :: fireTimes 0 [300000000, 1200000000] ∧
    (1200000000 : Int) = lastFire (0 - debounceWindow) [0, 300000000, 1200000000] :=
  C1_debounce_timing none "make" 0 (⟨.modify, ["a.css"]⟩, 0)
    [(⟨.modify, ["a.css"]⟩, 300000000), (⟨.modify, ["a.css"]⟩, 1200000000)]
    ⟨⟨true, 1200000000⟩,
     [.changeDetected, .changeInfo ("Modify", "a.css"), .runningCommand "make",
      .runningCommand "make"],
     [("make", 0), ("make", 1200000000)]⟩
    (by decide) (by norm_num [List.chain'_cons]) (by decide) (by decide)

/-- Claim C2: processing a notification never resets a set `has_changes`
latch — any successful step from a latched state stays latched — and on
every successful run of the loop from its initial state the
`Change detected!` line appears at most once in the log. -/
theorem C2_one_shot_latch :
    (∀ (exts : Option (List String)) (command : Option String) (s : LoopState)
        (n : Notification) (t : Int) (r : StepResult),
        processNotification exts command s n t = some r →
        s.has_changes = true → r.state.has_changes = true) ∧
    (∀ (exts : Option (List String)) (command : Option String) (start : Int)
        (evs : List (Notification × Int)) (r : StepResult),
        runLoop exts command (initState start) evs = some r →
        countDetected r.logs ≤ 1) := by
  constructor
  · intro exts command s n t r h hs
    have hcount := processNotification_count exts command s n t r h
    rw [hs] at hcount
    by_cases hr : r.state.has_changes = true
    · exact hr
    · simp only [Bool.not_eq_true] at hr
      rw [hr] at hcount
      simp at hcount
  · intro exts command start evs r h
    have hcount := runLoop_count exts command evs (initState start) r h
    simp only [initState, cond_false] at hcount
    by_cases hr : r.state.has_changes = true
    · rw [hr] at hcount; simp at hcount; omega
    · simp only [Bool.not_eq_true] at hr
      rw [hr] at hcount; simp at hcount; omega

theorem C2_one_shot_latch_witness :
    (StepResult.mk ⟨true, 0⟩ [.errorLine "e"] []).state.has_changes = true ∧
    countDetected (StepResult.mk ⟨true, -1000000000⟩
      [.changeDetected, .changeInfo ("Modify", "a")] []).logs ≤ 1 :=
  ⟨C2_one_shot_latch.1 none none ⟨true, 0⟩ (.err "e") 5 _ rfl rfl,
   C2_one_shot_latch.2 none none 0 [(.ok ⟨.modify, ["a"]⟩, 0)] _ rfl⟩

/-- Claim C5, counterexample: processing an error notification is not
inert.  Starting from the initial state, one relevant event at time 0
fires and leaves the state latched with last-fire time 0; the error
notification processed at time 2000000000 then itself spawns the command
and advances the last-fire time — the claim says an error spawns nothing
and leaves the debounce state unchanged. -/
theorem C5_counterexample :
    runLoop none (some "make") (initState 0)
        [(.ok ⟨.modify, ["a.css"]⟩, 0), (.err "boom", 2000000000)] =
      some ⟨⟨true, 2000000000⟩,
            [.changeDetected, .changeInfo ("Modify", "a.css"), .runningCommand "make",
             .errorLine "boom", .runningCommand "make"],
            [("make", 0), ("make", 2000000000)]⟩ ∧
    processNotification none (some "make") ⟨true, 0⟩ (.err "boom") 2000000000 =
      some ⟨⟨true, 2000000000⟩, [.errorLine "boom", .runningCommand "make"],
            [("make", 2000000000)]⟩ ∧
    ¬((2000000000 : Int) = 0 ∧ ([("make", 2000000000)] : List (String × Int)) = []) :=
  ⟨by decide, by decide, by decide⟩

/-- Claim C5, amended: an error notification is reported and never stops
the loop, and the error arm itself touches no state; but the firing block
still runs at the end of the iteration, so when a command is configured,
the latch is already set and the window has elapsed, processing the error
spawns the command and advances the last-fire time — otherwise the step
leaves the state unchanged and spawns nothing. -/
theorem C5_error_step (exts : Option (List String)) (command : Option String)
    (s : LoopState) (msg : String) (now : Int) :
    (∀ cmd, command = some cmd → s.has_changes = true →
      debounceWindow ≤ now - s.last_call_time →
      processNotification exts command s (.err msg) now =
        some ⟨⟨true, now⟩, [.errorLine msg, .runningCommand cmd], [(cmd, now)]⟩) ∧
    ((command = none ∨ s.has_changes = false ∨ now - s.last_call_time < debounceWindow) →
      processNotification exts command s (.err msg) now =
        some ⟨s, [.errorLine msg], []⟩) := by
  obtain ⟨hc, lt⟩ := s
  constructor
  · rintro cmd rfl hs hw
    simp only at hs
    subst hs
    simp [processNotification, fireStep, hw]
  · rintro (rfl | hs | hw)
    · simp [processNotification, fireStep]
    · simp only at hs
      subst hs
      cases command <;> simp [processNotification, fireStep]
    · have hnw : ¬ debounceWindow ≤ now - lt := by simp only at hw; omega
      cases command <;> cases hc <;> simp [processNotification, fireStep, hnw]

theorem C5_error_step_witness :
    processNotification none (some "pwsh") ⟨true, 0⟩ (.err "boom") 2000000000 =
      some ⟨⟨true, 2000000000⟩, [.errorLine "boom", .runningCommand "pwsh"],
            [("pwsh", 2000000000)]⟩ ∧
    processNotification none none ⟨false, 0⟩ (.err "boom") 5 =
      some ⟨⟨false, 0⟩, [.errorLine "boom"], []⟩ :=
  ⟨(C5_error_step none (some "pwsh") ⟨true, 0⟩ "boom" 2000000000).1 "pwsh" rfl rfl
      (by decide),
   (C5_error_step none none ⟨false, 0⟩ "boom" 5).2 (Or.inl rfl)⟩

/-- Claim C8: the trigger state is initialized with the last-fire time
one debounce window before the loop start, so the very first qualifying
event — a relevant event with a command configured, arriving at or after
the start — satisfies the firing condition and fires immediately. -/
theorem C8_first_fire (exts : Option (List String)) (cmd : String) (start t : Int)
    (e : RawEvent) (p : String) (ps : List String)
    (hp : e.paths = p :: ps) (hrel : isRelevant e.paths exts = true)
    (ht : start ≤ t) :
    initState start = ⟨false, start - debounceWindow⟩ ∧
    processNotification exts (some cmd) (initState start) (.ok e) t =
      some ⟨⟨true, t⟩,
            [.changeDetected, .changeInfo (kindLabel e.kind, p), .runningCommand cmd],
            [(cmd, t)]⟩ := by
  refine ⟨rfl, ?_⟩
  have htup := event_to_tuple_eq e p ps hp
  have hw : debounceWindow ≤ t - (start - debounceWindow) := by omega
  simp [processNotification, hrel, htup, initState, fireStep, hw]

theorem C8_first_fire_witness :
    initState 5 = ⟨false, 5 - debounceWindow⟩ ∧
    processNotification (some ["css"]) (some "make") (initState 5)
        (.ok ⟨.modify, ["a.css"]⟩) 5 =
      some ⟨⟨true, 5⟩,
            [.changeDetected, .changeInfo (kindLabel RawKind.modify, "a.css"),
             .runningCommand "make"],
            [("make", 5)]⟩ :=
  C8_first_fire (some ["css"]) "make" 5 5 ⟨.modify, ["a.css"]⟩ "a.css" [] rfl
    (by decide) (by decide)

end Xpectate
